import Mathlib

/-!
Verification of the AIChaos listener pipeline (src/twitch_listener.py and
src/youtube_listener.py).  The two adapters share the moderation filter,
rate limiter and dispatcher logic almost verbatim; the shared logic is
embedded once, parameterised by the configuration values each module holds
in globals, and the adapter-specific handlers (`chaos` for Twitch,
the Super-Chat / regular-chat branches of `main` for YouTube) are embedded
as pure functions from an inbound event, the current cooldown state and an
oracle for the backend's HTTP response to the handler's observable outcome
(messages sent to chat, console log lines, new cooldown state, whether the
dispatcher was invoked).

Strings are `List Char`; Python float amounts are modelled as exact
decimals (`DecAmount`, a natural numerator with a power-of-ten exponent,
valued in `ℚ`) — exact where the float comparison is exact, which covers
every short decimal amount occurring here; `time.time()` values are
modelled as `Int` seconds.
-/

namespace AIChaos

/-- Python `p in s` / prefix test on character lists:
`startsWithL p s` is true iff `p` is a leading segment of `s`. -/
def startsWithL : List Char → List Char → Bool
  | [], _ => true
  | _ :: _, [] => false
  | a :: ps, b :: ss => a == b && startsWithL ps ss

/-- Python substring containment `p in s` (str.__contains__). -/
def strIn (p : List Char) : List Char → Bool
  | [] => p.isEmpty
  | c :: cs => startsWithL p (c :: cs) || strIn p cs

/-- `p` is a leading segment of `s` (propositional form). -/
def PrefixP (p s : List Char) : Prop := ∃ t, p ++ t = s

/-- `p` occurs contiguously inside `s` (propositional form). -/
def InfixP (p s : List Char) : Prop := ∃ a b, a ++ p ++ b = s

/-! ## The URL scanner (`contains_url`)

Both listeners detect URLs with
`re.findall(r'http[s]?://(?:[a-zA-Z]|[0-9]|[$-_@.&+]|[!*\(\),]|(?:%[0-9a-fA-F][0-9a-fA-F]))+', text)`.
Each alternative of the group matches a single character except `%hh`,
whose three characters (`%` lies in the range `$-_`, hex digits are
alphanumeric) are each already matched by the earlier alternatives, so a
maximal greedy match after the scheme is exactly a maximal run of the
single-character class.  `re.findall` scans left to right, returning
non-overlapping maximal matches. -/

/-- One character of the URL body character class:
`[a-zA-Z] | [0-9] | [$-_@.&+] | [!*\(\),]` (the `[$-_]` range is
the ASCII range 0x24–0x5F; `@ . & +` and the hex-escape alternative are
subsumed by it, as are `* \ ( ) ,` of the last class — only `!` adds). -/
def urlChar (c : Char) : Bool :=
  ('a' ≤ c && c ≤ 'z') || ('A' ≤ c && c ≤ 'Z') ||
  ('0' ≤ c && c ≤ '9') ||
  ('$' ≤ c && c ≤ '_') || c == '@' || c == '.' || c == '&' || c == '+' ||
  c == '!' || c == '*' || c == '\\' || c == '(' || c == ')' || c == ','

def httpsScheme : List Char := "https://".data

def httpScheme : List Char := "http://".data

/-- Attempt the regex body after a scheme of `n` characters: the greedy
`(...)+` takes the maximal run of `urlChar`s and requires it nonempty.
Returns the full match together with the unscanned remainder. -/
def matchAfter (s : List Char) (n : Nat) : Option (List Char × List Char) :=
  let body := (s.drop n).takeWhile urlChar
  if body = [] then none
  else some (s.take n ++ body, (s.drop n).drop body.length)

/-- Attempt a regex match anchored at the head of `s`: `http[s]?://` (the
greedy optional `s` makes `https://` preferred; the two scheme literals are
mutually exclusive on any fixed text) followed by a nonempty body. -/
def matchURLAt (s : List Char) : Option (List Char × List Char) :=
  if startsWithL httpsScheme s then matchAfter s 8
  else if startsWithL httpScheme s then matchAfter s 7
  else none

/-- `re.findall` scan: try a match at every position, left to right,
resuming after the end of each match.  `fuel` bounds the recursion and is
instantiated with the text length (every step consumes at least one
character). -/
def findURLsGo : Nat → List Char → List (List Char)
  | _, [] => []
  | 0, _ => []
  | fuel + 1, c :: cs =>
    match matchURLAt (c :: cs) with
    | some (m, r) => m :: findURLsGo fuel r
    | none => findURLsGo fuel cs

/-- `contains_url(text)`: the list of URL regex matches in `text`. -/
def contains_url (s : List Char) : List (List Char) := findURLsGo s.length s

/-! ## Python `str.replace`

`filtered_message.replace(url, "[URL REMOVED]")` replaces every
non-overlapping occurrence, scanning the original string left to right and
resuming after each replaced occurrence; occurrences newly formed by the
inserted replacement text are not rescanned.  All call sites pass a
nonempty pattern (a regex match is at least eight characters), which the
`!pat.isEmpty` guard mirrors; the Python semantics of an empty pattern is
not modelled.  `fuel` is instantiated with the string length. -/
def replaceAllGo (pat rep : List Char) : Nat → List Char → List Char
  | _, [] => []
  | 0, s => s
  | fuel + 1, c :: cs =>
    if !pat.isEmpty && startsWithL pat (c :: cs) then
      rep ++ replaceAllGo pat rep fuel ((c :: cs).drop pat.length)
    else
      c :: replaceAllGo pat rep fuel cs

/-- `s.replace(pat, rep)` for nonempty `pat`. -/
def replaceAll (pat rep s : List Char) : List Char := replaceAllGo pat rep s.length s

/-! ## `urlparse(url).netloc` and the allowlist check -/

/-- The redaction marker the filter substitutes for a removed URL. -/
def marker : List Char := "[URL REMOVED]".data

/-- Model of `urllib.parse.urlparse(url).netloc` (wrapped in the filter's
`try`), for the inputs the filter feeds it: regex matches, which always
begin with `http://` or `https://`.  After the `//` the netloc extends to
the first `/`, `?` or `#`.  `urlparse` raises `ValueError` ("Invalid IPv6
URL") when the netloc has `[` without `]` or vice versa — modelled as
`none`, which the filter's `except` arm treats as "redact" (fail-closed).
(The additional bracketed-host validation of Python ≥ 3.11 only turns more
URLs into that same fail-closed arm and is not modelled.) -/
def parseNetloc (url : List Char) : Option (List Char) :=
  let rest := if startsWithL httpsScheme url then url.drop 8 else url.drop 7
  let netloc := rest.takeWhile (fun c => !(c == '/') && !(c == '?') && !(c == '#'))
  if (netloc.contains '[' && !netloc.contains ']') ||
     (netloc.contains ']' && !netloc.contains '[') then none
  else some netloc

/-- `any(allowed in domain for allowed in ALLOWED_DOMAINS)` applied to the
lowercased netloc: substring containment of an allowlist entry. -/
def domainAllowed (allowedDomains : List (List Char)) (domain : List Char) : Bool :=
  allowedDomains.any (fun allowed => strIn allowed domain)

/-- One iteration of the filter's `for url in urls` loop, acting on the
accumulated `(filtered_message, filtered)` pair. -/
def filterStep (allowedDomains : List (List Char)) (acc : List Char × Bool)
    (url : List Char) : List Char × Bool :=
  match parseNetloc url with
  | some netloc =>
    let domain := netloc.map Char.toLower
    if domainAllowed allowedDomains domain then acc
    else (replaceAll url marker acc.1, true)
  | none => (replaceAll url marker acc.1, true)

/-- `filter_urls(message, ...)` of both listeners: returns
`(filtered_message, filtered)`.  `block_urls`, `allowedDomains` stand for
the module globals `BLOCK_URLS`, `ALLOWED_DOMAINS`; `isMod` is the value of
the adapter's `is_moderator(...)` check. -/
def filter_urls (block_urls : Bool) (allowedDomains : List (List Char))
    (isMod : Bool) (message : List Char) : List Char × Bool :=
  if !block_urls then (message, false)
  else if isMod then (message, false)
  else
    let urls := contains_url message
    if urls.isEmpty then (message, false)
    else urls.foldl (filterStep allowedDomains) (message, false)

/-- A URL match the filter redacts: its netloc fails to parse, or the
lowercased netloc contains no allowlist entry as a substring. -/
def urlDisallowed (allowedDomains : List (List Char)) (url : List Char) : Bool :=
  match parseNetloc url with
  | some netloc => !domainAllowed allowedDomains (netloc.map Char.toLower)
  | none => true

/-! ## Moderator checks -/

/-- Twitch `is_moderator(ctx)`:
`ctx.author.is_mod or ctx.author.is_broadcaster or ctx.author.name in MODERATORS`. -/
def twitch_is_moderator (moderators : List (List Char)) (author : List Char)
    (is_mod is_broadcaster : Bool) : Bool :=
  (is_mod || is_broadcaster) || moderators.contains author

/-- YouTube `is_moderator(author, is_mod_flag)`:
`author in MODERATORS or is_mod_flag`. -/
def yt_is_moderator (moderators : List (List Char)) (author : List Char)
    (is_mod_flag : Bool) : Bool :=
  moderators.contains author || is_mod_flag

/-! ## Rate limiter (`user_cooldowns`, `is_on_cooldown`, `set_cooldown`)

The `user_cooldowns` dict is an association list from author name to the
`time.time()` (seconds, modelled as `Int`) of the last accepted command. -/

abbrev Cooldowns := List (List Char × Int)

def lookupCd : Cooldowns → List Char → Option Int
  | [], _ => none
  | (b, t) :: rest, a => if b = a then some t else lookupCd rest a

/-- `user_cooldowns[author] = time` (dict insert-or-replace). -/
def set_cooldown : Cooldowns → List Char → Int → Cooldowns
  | [], a, t => [(a, t)]
  | (b, u) :: rest, a, t => if b = a then (a, t) :: rest else (b, u) :: set_cooldown rest a t

/-- `is_on_cooldown(author)`: true iff the author has a recorded timestamp
and `now - timestamp < COOLDOWN_SECONDS`. -/
def is_on_cooldown (cooldown_seconds : Int) (cd : Cooldowns) (now : Int)
    (author : List Char) : Bool :=
  match lookupCd cd author with
  | some t => decide (now - t < cooldown_seconds)
  | none => false

/-! ## Dispatcher (`send_to_brain`)

The backend interaction is modelled by an oracle value of type
`BrainResponse` describing what the single `requests.post` call yields:
a network/timeout failure (`requests.exceptions.RequestException`) or an
HTTP response with a status code and a JSON body, of which the handlers
read the optional fields `status` and `message` via `data.get`. -/

structure BrainBody where
  status : Option (List Char)
  message : Option (List Char)
deriving DecidableEq

inductive BrainResponse
  | http (code : Nat) (body : BrainBody)
  | networkError
deriving DecidableEq

/-- The console line `send_to_brain` prints, as observable output: the
three failure shapes are distinguishable in the log even though the
function's return value conflates two of them. -/
inductive BrainLog
  | queuedOk
  | blockedBySafety (msg : Option (List Char))
  | brainError (code : Nat)
  | connectFailed
deriving DecidableEq

/-- `send_to_brain(prompt, author, ...)` of both listeners: first component
is the Python return value (`True`, `False`, or the implicit `None` of the
fall-through when HTTP 200 carries a status that is neither `"queued"` nor
`"ignored"`), second the console line printed (none on that fall-through,
which prints nothing). -/
def send_to_brain (resp : BrainResponse) : Option Bool × Option BrainLog :=
  match resp with
  | .http code body =>
    if code = 200 then
      if body.status = some "queued".data then (some true, some .queuedOk)
      else if body.status = some "ignored".data then
        (some false, some (.blockedBySafety body.message))
      else (none, none)
    else (some false, some (.brainError code))
  | .networkError => (some false, some .connectFailed)

/-- Python truthiness of the dispatcher's return value, as tested by
`if send_to_brain(...):` — `None` and `False` are both falsy. -/
def pyTruthy : Option Bool → Bool
  | some b => b
  | none => false

/-! ## Paid-amount parsing (YouTube)

`float(''.join(filter(lambda x: x.isdigit() or x == '.', amount_str)))`
with `except: amount_value = 0`.  Python floats are modelled as exact
decimals `num / 10 ^ exp` (`DecAmount`); every amount occurring here is a
short decimal literal, where the float comparison agrees with the exact
one. -/

structure DecAmount where
  num : Nat
  exp : Nat
deriving DecidableEq

/-- Exact value of a decimal amount. -/
def DecAmount.val (a : DecAmount) : ℚ := (a.num : ℚ) / (10 : ℚ) ^ a.exp

/-- The code's `amount_value >= MIN_SUPER_CHAT_AMOUNT` comparison, by
cross-multiplication (executable; agrees with `≤` on `val`). -/
def decAmountLe (x y : DecAmount) : Bool :=
  decide (x.num * 10 ^ y.exp ≤ y.num * 10 ^ x.exp)

/-- `''.join(filter(lambda x: x.isdigit() or x == '.', amount_str))`. -/
def extractAmount (s : List Char) : List Char :=
  s.filter (fun c => c.isDigit || c == '.')

/-- Value of a digit string (empty string denotes 0, as in `int`-free
positional accumulation; used only on all-digit strings). -/
def digitsToNat : List Char → Nat :=
  List.foldl (fun acc c => 10 * acc + (c.toNat - '0'.toNat)) 0

/-- Python `float(s)` on the extracted string: defined (`some`) iff the
string consists of digits and at most one `'.'` and has at least one
digit (`float` raises `ValueError` on `""`, `"."`, or several dots).
`"5."` is `5.0` and `".5"` is `0.5`. -/
def parseAmount (s : List Char) : Option DecAmount :=
  if s.all (fun c => c.isDigit || c == '.') && s.any (fun c => c.isDigit)
     && decide (s.count '.' ≤ 1) then
    let ip := s.takeWhile (fun c => !(c == '.'))
    let fp := (s.dropWhile (fun c => !(c == '.'))).drop 1
    some ⟨digitsToNat ip * 10 ^ fp.length + digitsToNat fp, fp.length⟩
  else none

/-- The `try/except` around the parse: a failure degrades to amount 0. -/
def amountValue (amount_str : List Char) : DecAmount :=
  (parseAmount (extractAmount amount_str)).getD ⟨0, 0⟩

/-! ## Twitch handler (`chaos`) -/

/-- The distinct `ctx.send` messages of the `chaos` handler; every one is
addressed `@{author}`.  Numeric interpolations are carried as fields. -/
inductive SentMsg
  | usage (author : List Char)
  | needBits (author : List Char) (minBits : Nat)
  | cooldownWait (author : List Char) (seconds : Int)
  | urlsFiltered (author : List Char)
  | processing (author : List Char)
  | success (author : List Char)
  | failed (author : List Char)
deriving DecidableEq

/-- The author a chat message is addressed to (each f-string begins
`@{author} ...`). -/
def msgAuthor : SentMsg → List Char
  | .usage a => a
  | .needBits a _ => a
  | .cooldownWait a _ => a
  | .urlsFiltered a => a
  | .processing a => a
  | .success a => a
  | .failed a => a

/-- Messages reporting the command's outcome (rejection or the success
acknowledgement), as opposed to the informational filtering notice and the
"Processing..." progress notice. -/
def isOutcomeMsg : SentMsg → Bool
  | .usage _ => true
  | .needBits _ _ => true
  | .cooldownWait _ _ => true
  | .urlsFiltered _ => false
  | .processing _ => false
  | .success _ => true
  | .failed _ => true

/-- The Twitch module configuration globals used by `chaos`. -/
structure TwitchCfg where
  require_bits : Bool
  min_bits_amount : Nat
  cooldown_seconds : Int
  block_urls : Bool
  moderators : List (List Char)
  allowed_domains : List (List Char)

/-- Observable outcome of one `chaos` invocation: the `ctx.send` calls in
order, the cooldown dict afterwards, and whether `send_to_brain` ran. -/
structure ChaosResult where
  sent : List SentMsg
  cooldowns : Cooldowns
  dispatched : Bool
deriving DecidableEq

/-- The Twitch `chaos` command handler.  `prompt` is the command argument
(`None` when absent; `if not prompt` also catches an empty string), `bits`
the parsed bits tag (0 when absent), `is_mod`/`is_broadcaster` the
platform role flags on `ctx.author`, `resp` the backend oracle. -/
def chaos (cfg : TwitchCfg) (cd : Cooldowns) (now : Int) (author : List Char)
    (prompt : Option (List Char)) (bits : Nat) (is_mod is_broadcaster : Bool)
    (resp : BrainResponse) : ChaosResult :=
  match prompt with
  | none => ⟨[.usage author], cd, false⟩
  | some p =>
    if p.isEmpty then ⟨[.usage author], cd, false⟩
    else if cfg.require_bits && decide (bits < cfg.min_bits_amount) then
      ⟨[.needBits author cfg.min_bits_amount], cd, false⟩
    else if is_on_cooldown cfg.cooldown_seconds cd now author then
      ⟨[.cooldownWait author cfg.cooldown_seconds], cd, false⟩
    else
      let fr := filter_urls cfg.block_urls cfg.allowed_domains
        (twitch_is_moderator cfg.moderators author is_mod is_broadcaster) p
      let pre := (if fr.2 then [SentMsg.urlsFiltered author] else []) ++
        [SentMsg.processing author]
      if pyTruthy (send_to_brain resp).1 then
        ⟨pre ++ [.success author], set_cooldown cd author now, true⟩
      else
        ⟨pre ++ [.failed author], cd, true⟩

/-! ## YouTube handler (the loop body of `main`)

The YouTube listener reads chat through `pytchat`, a read-only transport:
the source contains no API call that sends a chat message, so nothing is
ever delivered to the originating author; every user-facing line of this
adapter is a `print` to the operator console.  `YTOutcome.sentToAuthor`
records the (always empty) list of messages sent to the author, and
`printed` the handler-level console lines (the dispatcher's own log line is
reported separately by `send_to_brain`). -/

/-- The distinct handler-level `print` lines of the YouTube loop body. -/
inductive YPrint
  | superChatHeader (author amount_str : List Char)
  | messageLine (message : List Char)
  | regularHeader (author prompt : List Char)
  | urlsRemovedNote
  | filteredLine (filtered : List Char)
  | amountTooLow
  | cooldownSkip
  | chaosActivated
  | failedToProcess
deriving DecidableEq

/-- Console lines reporting the event's outcome, as opposed to the header
and filtering notices. -/
def isOutcomePrint : YPrint → Bool
  | .amountTooLow => true
  | .cooldownSkip => true
  | .chaosActivated => true
  | .failedToProcess => true
  | _ => false

/-- The YouTube module configuration globals used by the loop body. -/
structure YTCfg where
  min_super_chat_amount : DecAmount
  allow_regular_chat : Bool
  chat_command : List Char
  cooldown_seconds : Int
  block_urls : Bool
  moderators : List (List Char)
  allowed_domains : List (List Char)

/-- Observable outcome of processing one YouTube chat item. -/
structure YTOutcome where
  printed : List YPrint
  cooldowns : Cooldowns
  dispatched : Bool
  sentToAuthor : List SentMsg
deriving DecidableEq

/-- The Super-Chat branch (`c.type == 'superChat'`).  `amountString` is
`c.amountString` when the attribute exists (`"Unknown"` otherwise), and
`isChatModerator` likewise models the `hasattr` check on the author. -/
def ytSuperChat (cfg : YTCfg) (cd : Cooldowns) (now : Int)
    (author message : List Char) (amountString : Option (List Char))
    (isChatModerator : Option Bool) (resp : BrainResponse) : YTOutcome :=
  let amount_str := amountString.getD "Unknown".data
  let amount_value := amountValue amount_str
  let header := [YPrint.superChatHeader author amount_str, YPrint.messageLine message]
  if decAmountLe cfg.min_super_chat_amount amount_value then
    let is_mod := isChatModerator.getD false
    let fr := filter_urls cfg.block_urls cfg.allowed_domains
      (yt_is_moderator cfg.moderators author is_mod) message
    let fNotes := if fr.2 then [YPrint.urlsRemovedNote, YPrint.filteredLine fr.1] else []
    if is_on_cooldown cfg.cooldown_seconds cd now author then
      ⟨header ++ fNotes ++ [.cooldownSkip], cd, false, []⟩
    else if pyTruthy (send_to_brain resp).1 then
      ⟨header ++ fNotes ++ [.chaosActivated], set_cooldown cd author now, true, []⟩
    else
      ⟨header ++ fNotes ++ [.failedToProcess], cd, true, []⟩
  else
    ⟨header ++ [.amountTooLow], cd, false, []⟩

/-- Python `str.strip()` (whitespace from both ends). -/
def pyStrip (s : List Char) : List Char :=
  ((s.dropWhile Char.isWhitespace).reverse.dropWhile Char.isWhitespace).reverse

/-- The regular-chat branch
(`elif ALLOW_REGULAR_CHAT and message.startswith(CHAT_COMMAND)`); when the
guard fails, or the prompt after the command prefix strips to empty, the
loop body does nothing for this item. -/
def ytRegular (cfg : YTCfg) (cd : Cooldowns) (now : Int)
    (author message : List Char) (isChatModerator : Option Bool)
    (resp : BrainResponse) : YTOutcome :=
  if cfg.allow_regular_chat && startsWithL cfg.chat_command message then
    let prompt := pyStrip (message.drop cfg.chat_command.length)
    if prompt.isEmpty then ⟨[], cd, false, []⟩
    else
      let header := [YPrint.regularHeader author prompt]
      let is_mod := isChatModerator.getD false
      let fr := filter_urls cfg.block_urls cfg.allowed_domains
        (yt_is_moderator cfg.moderators author is_mod) prompt
      let fNotes := if fr.2 then [YPrint.urlsRemovedNote, YPrint.filteredLine fr.1] else []
      if is_on_cooldown cfg.cooldown_seconds cd now author then
        ⟨header ++ fNotes ++ [.cooldownSkip], cd, false, []⟩
      else if pyTruthy (send_to_brain resp).1 then
        ⟨header ++ fNotes ++ [.chaosActivated], set_cooldown cd author now, true, []⟩
      else
        ⟨header ++ fNotes ++ [.failedToProcess], cd, true, []⟩
  else ⟨[], cd, false, []⟩

/-! ## Source configuration values -/

/-- `ALLOWED_DOMAINS` as configured in both listeners. -/
def srcAllowedDomains : List (List Char) := ["i.imgur.com".data, "imgur.com".data]

/-- The Twitch module configuration as shipped (`REQUIRE_BITS = False`,
`MIN_BITS_AMOUNT = 100`, `COOLDOWN_SECONDS = 5`, `BLOCK_URLS = True`,
`MODERATORS = []`). -/
def srcTwitchCfg : TwitchCfg := ⟨false, 100, 5, true, [], srcAllowedDomains⟩

/-- The YouTube module configuration as shipped
(`MIN_SUPER_CHAT_AMOUNT = 1.00`, `ALLOW_REGULAR_CHAT = False`,
`CHAT_COMMAND = "!chaos"`, `COOLDOWN_SECONDS = 5`, `BLOCK_URLS = True`,
`MODERATORS = []`). -/
def srcYTCfg : YTCfg := ⟨⟨100, 2⟩, false, "!chaos".data, 5, true, [], srcAllowedDomains⟩

/-- The Twitch filter call as made by `chaos` (its `is_moderator(ctx)`
argument spelled out). -/
def twFilter (cfg : TwitchCfg) (author p : List Char) (im ib : Bool) : List Char × Bool :=
  filter_urls cfg.block_urls cfg.allowed_domains
    (twitch_is_moderator cfg.moderators author im ib) p

/-- The messages `chaos` sends before the dispatch outcome: the optional
filtering notice and the "Processing..." notice. -/
def twPre (cfg : TwitchCfg) (author p : List Char) (im ib : Bool) : List SentMsg :=
  (if (twFilter cfg author p im ib).2 then [SentMsg.urlsFiltered author] else []) ++
  [SentMsg.processing author]

/-- The YouTube filter call as made by the loop body. -/
def ytFilter (cfg : YTCfg) (author m : List Char) (mo : Option Bool) : List Char × Bool :=
  filter_urls cfg.block_urls cfg.allowed_domains
    (yt_is_moderator cfg.moderators author (mo.getD false)) m

/-- The filtering-notice console lines of the YouTube loop body. -/
def ytNotes (cfg : YTCfg) (author m : List Char) (mo : Option Bool) : List YPrint :=
  if (ytFilter cfg author m mo).2 then
    [YPrint.urlsRemovedNote, YPrint.filteredLine (ytFilter cfg author m mo).1]
  else []

/-- The prompt the regular-chat branch extracts:
`message[len(CHAT_COMMAND):].strip()`. -/
def ytPrompt (cfg : YTCfg) (m : List Char) : List Char :=
  pyStrip (m.drop cfg.chat_command.length)

/-- The filtering-notice console lines of the regular-chat branch (the
filter runs on the stripped prompt there). -/
def ytNotesR (cfg : YTCfg) (author m : List Char) (mo : Option Bool) : List YPrint :=
  ytNotes cfg author (ytPrompt cfg m) mo

/-! ## Claim C1 -/

/-- The input witnessing that replacement can reconstruct a removed URL:
the second regex match contains the first as a proper substring, and
replacing the first match glues a retained `http://evil.com/x` onto the
inserted marker's leading `[`. -/
def cexText : List Char :=
  "http://evil.com/x[ http://evil.com/xhttp://evil.com/x[".data

/-- The disallowed URL match (host `evil.com`, ending in `[`). -/
def cexURL : List Char := "http://evil.com/x[".data

/-! ## Claim C3 -/

/-- A backend response declining the command on safety grounds. -/
def respIgnored : BrainResponse :=
  .http 200 ⟨some "ignored".data, some "too violent".data⟩

theorem startsWithL_iff (p : List Char) : ∀ s, startsWithL p s = true ↔ PrefixP p s := by
  induction p with
  | nil => intro s; simp [startsWithL, PrefixP]
  | cons a ps ih =>
    intro s
    cases s with
    | nil =>
      simp only [startsWithL, PrefixP]
      constructor
      · intro h; cases h
      · rintro ⟨t, h⟩; cases h
    | cons b ss =>
      simp only [startsWithL, Bool.and_eq_true, beq_iff_eq, ih ss, PrefixP]
      constructor
      · rintro ⟨rfl, t, rfl⟩; exact ⟨t, rfl⟩
      · rintro ⟨t, h⟩
        injection h with h1 h2
        exact ⟨h1, t, h2⟩

theorem infixP_cons_iff (p : List Char) (c : Char) (t : List Char) :
    InfixP p (c :: t) ↔ PrefixP p (c :: t) ∨ InfixP p t := by
  constructor
  · rintro ⟨a, b, hab⟩
    cases a with
    | nil => exact Or.inl ⟨b, by simpa using hab⟩
    | cons a0 as =>
      injection hab with h1 h2
      exact Or.inr ⟨as, b, h2⟩
  · rintro (⟨t', h⟩ | ⟨a, b, h⟩)
    · exact ⟨[], t', by simpa using h⟩
    · exact ⟨c :: a, b, by simp [← h]⟩

theorem infixP_nil_right (p : List Char) : InfixP p [] ↔ p = [] := by
  constructor
  · rintro ⟨a, b, h⟩
    rcases List.append_eq_nil.mp h with ⟨h1, h2⟩
    exact (List.append_eq_nil.mp h1).2
  · rintro rfl; exact ⟨[], [], rfl⟩

theorem strIn_iff (p : List Char) : ∀ s, strIn p s = true ↔ InfixP p s := by
  intro s
  induction s with
  | nil => simp [strIn, List.isEmpty_iff, infixP_nil_right]
  | cons c cs ih =>
    simp only [strIn, Bool.or_eq_true, startsWithL_iff, ih, infixP_cons_iff]

theorem PrefixP.infixP {p s : List Char} (h : PrefixP p s) : InfixP p s := by
  rcases h with ⟨t, h⟩; exact ⟨[], t, by simpa using h⟩

theorem PrefixP.length_le {p s : List Char} (h : PrefixP p s) : p.length ≤ s.length := by
  rcases h with ⟨t, rfl⟩; simp

theorem infixP_of_infixP_drop {p s : List Char} {n : Nat} (h : InfixP p (s.drop n)) :
    InfixP p s := by
  rcases h with ⟨a, b, hab⟩
  refine ⟨s.take n ++ a, b, ?_⟩
  have h2 : s.take n ++ (a ++ p ++ b) = s := by rw [hab]; exact List.take_append_drop n s
  simpa [List.append_assoc] using h2

theorem infixP_trans_infixP {p q s : List Char} (h1 : InfixP p q) (h2 : InfixP q s) :
    InfixP p s := by
  rcases h1 with ⟨a, b, rfl⟩
  rcases h2 with ⟨c, d, rfl⟩
  exact ⟨c ++ a, b ++ d, by simp⟩

theorem mem_of_infixP {c : Char} {p s : List Char} (hc : c ∈ p) (h : InfixP p s) : c ∈ s := by
  rcases h with ⟨a, b, rfl⟩
  simp [hc]

/-! ## Combinatorics of `replaceAll` with the redaction marker

The marker `"[URL REMOVED]"` contains no `'h'`, so no occurrence of a URL
(whose first character is `'h'`) can begin inside an inserted marker; and
the only way an occurrence can end inside a marker is by ending in a
nonempty marker prefix, i.e. by containing `'['`.  Hence replacement
removes every occurrence of a `'['`-free URL and creates none. -/

theorem marker_head : marker = '[' :: "URL REMOVED]".data := rfl

/-- If a `'['`-free nonempty `r` is a leading segment of a replacement
result, it was a leading segment of the input (it cannot begin with the
marker's `'['`, so the scan's first action at the head is visible in it). -/
theorem prefixP_replaceAllGo (pat : List Char) :
    ∀ fuel s r, r ≠ [] → '[' ∉ r →
      PrefixP r (replaceAllGo pat marker fuel s) → PrefixP r s := by
  intro fuel
  induction fuel with
  | zero =>
    intro s r hr _ h
    cases s with
    | nil =>
      rcases h with ⟨t, ht⟩
      simp only [replaceAllGo] at ht
      exact absurd (List.append_eq_nil.mp ht).1 hr
    | cons c cs => simpa only [replaceAllGo] using h
  | succ fuel ih =>
    intro s r hr hbr h
    cases s with
    | nil =>
      rcases h with ⟨t, ht⟩
      simp only [replaceAllGo] at ht
      exact absurd (List.append_eq_nil.mp ht).1 hr
    | cons c cs =>
      simp only [replaceAllGo] at h
      by_cases hg : (!pat.isEmpty && startsWithL pat (c :: cs)) = true
      · rw [if_pos hg] at h
        rcases h with ⟨t, ht⟩
        cases r with
        | nil => exact absurd rfl hr
        | cons rc rt =>
          rw [marker_head] at ht
          injection ht with h1 _
          exact absurd (h1 ▸ List.mem_cons_self rc rt) hbr
      · rw [if_neg hg] at h
        rcases h with ⟨t, ht⟩
        cases r with
        | nil => exact absurd rfl hr
        | cons rc rt =>
          injection ht with h1 h2
          subst h1
          cases rt with
          | nil => exact ⟨cs, rfl⟩
          | cons r0 rs =>
            have : PrefixP (r0 :: rs) cs :=
              ih cs (r0 :: rs) (by simp) (fun hm => hbr (List.mem_cons_of_mem _ hm))
                ⟨t, h2⟩
            rcases this with ⟨t', ht'⟩
            exact ⟨t', by rw [List.cons_append, ht']⟩

/-- An occurrence of a string beginning with `'h'` inside `m ++ lst`,
where `m` is `'h'`-free, lies inside `lst`. -/
theorem infixP_through_nonH {q : List Char} (hq : q.head? = some 'h') :
    ∀ m lst : List Char, (∀ a ∈ m, a ≠ 'h') → InfixP q (m ++ lst) → InfixP q lst := by
  intro m
  induction m with
  | nil => intro lst _ h; simpa using h
  | cons d m' ih =>
    intro lst hm h
    rw [List.cons_append, infixP_cons_iff] at h
    rcases h with h | h
    · rcases h with ⟨t, ht⟩
      cases q with
      | nil => simp at hq
      | cons qc qt =>
        injection hq with hq1
        injection ht with h1 _
        exact absurd (h1.symm.trans hq1) (hm d (List.mem_cons_self d m'))
    · exact ih lst (fun a ha => hm a (List.mem_cons_of_mem d ha)) h

theorem marker_no_h : ∀ a ∈ marker, a ≠ 'h' := by decide

/-- After `s.replace(pat, marker)` no occurrence of `pat` remains, for a
pattern that begins with `'h'` and contains no `'['`. -/
theorem replaceAllGo_no_self {pat : List Char} (hh : pat.head? = some 'h')
    (hb : '[' ∉ pat) :
    ∀ fuel s, s.length ≤ fuel → ¬ InfixP pat (replaceAllGo pat marker fuel s) := by
  have hpat_ne : pat ≠ [] := by cases pat with
    | nil => simp at hh
    | cons a b => simp
  have hpat_len : 1 ≤ pat.length := by cases pat with
    | nil => simp at hh
    | cons a b => simp
  intro fuel
  induction fuel with
  | zero =>
    intro s hs h
    have : s = [] := List.length_eq_zero.mp (Nat.le_zero.mp hs)
    subst this
    simp only [replaceAllGo] at h
    exact hpat_ne ((infixP_nil_right pat).mp h)
  | succ fuel ih =>
    intro s hs h
    cases s with
    | nil =>
      simp only [replaceAllGo] at h
      exact hpat_ne ((infixP_nil_right pat).mp h)
    | cons c cs =>
      simp only [replaceAllGo] at h
      by_cases hg : (!pat.isEmpty && startsWithL pat (c :: cs)) = true
      · rw [if_pos hg] at h
        have h2 := infixP_through_nonH hh marker _ marker_no_h h
        have hlen : ((c :: cs).drop pat.length).length ≤ fuel := by
          have h1 : (c :: cs).length ≤ fuel + 1 := hs
          simp only [List.length_drop, List.length_cons] at h1 ⊢
          omega
        exact ih _ hlen h2
      · rw [if_neg hg] at h
        rw [infixP_cons_iff] at h
        rcases h with h | h
        · have hpre : PrefixP pat (replaceAllGo pat marker (fuel + 1) (c :: cs)) := by
            simpa only [replaceAllGo, if_neg hg] using h
          have := prefixP_replaceAllGo pat (fuel + 1) (c :: cs) pat hpat_ne hb hpre
          rw [← startsWithL_iff] at this
          simp [List.isEmpty_iff, hpat_ne, this] at hg
        · exact ih cs (by simpa using hs) h

/-- Replacement with the marker creates no new occurrence of a `'['`-free
string beginning with `'h'`. -/
theorem replaceAllGo_preserves {q : List Char} (hh : q.head? = some 'h')
    (hb : '[' ∉ q) (pat : List Char) :
    ∀ fuel s, s.length ≤ fuel → ¬ InfixP q s →
      ¬ InfixP q (replaceAllGo pat marker fuel s) := by
  have hq_ne : q ≠ [] := by cases q with
    | nil => simp at hh
    | cons a b => simp
  intro fuel
  induction fuel with
  | zero =>
    intro s hs _ h
    have : s = [] := List.length_eq_zero.mp (Nat.le_zero.mp hs)
    subst this
    simp only [replaceAllGo] at h
    exact hq_ne ((infixP_nil_right q).mp h)
  | succ fuel ih =>
    intro s hs hns h
    cases s with
    | nil =>
      simp only [replaceAllGo] at h
      exact hq_ne ((infixP_nil_right q).mp h)
    | cons c cs =>
      simp only [replaceAllGo] at h
      by_cases hg : (!pat.isEmpty && startsWithL pat (c :: cs)) = true
      · rw [if_pos hg] at h
        have h2 := infixP_through_nonH hh marker _ marker_no_h h
        have hpat_len : 1 ≤ pat.length := by
          cases pat with
          | nil => simp at hg
          | cons a b => simp
        have hlen : ((c :: cs).drop pat.length).length ≤ fuel := by
          have h1 : (c :: cs).length ≤ fuel + 1 := hs
          simp only [List.length_drop, List.length_cons] at h1 ⊢
          omega
        have hnd : ¬ InfixP q ((c :: cs).drop pat.length) :=
          fun hx => hns (infixP_of_infixP_drop hx)
        exact ih _ hlen hnd h2
      · rw [if_neg hg] at h
        rw [infixP_cons_iff] at h
        rcases h with h | h
        · have hpre : PrefixP q (replaceAllGo pat marker (fuel + 1) (c :: cs)) := by
            simpa only [replaceAllGo, if_neg hg] using h
          exact hns (prefixP_replaceAllGo pat (fuel + 1) (c :: cs) q hq_ne hb hpre).infixP
        · have hnc : ¬ InfixP q cs := fun hx => hns ((infixP_cons_iff q c cs).mpr (Or.inr hx))
          exact ih cs (by simpa using hs) hnc h

/-- `replaceAll` wrapper of `replaceAllGo_no_self`. -/
theorem replaceAll_no_self {pat : List Char} (hh : pat.head? = some 'h')
    (hb : '[' ∉ pat) (s : List Char) : ¬ InfixP pat (replaceAll pat marker s) :=
  replaceAllGo_no_self hh hb s.length s le_rfl

/-- `replaceAll` wrapper of `replaceAllGo_preserves`. -/
theorem replaceAll_preserves {q : List Char} (hh : q.head? = some 'h')
    (hb : '[' ∉ q) (pat s : List Char) (hns : ¬ InfixP q s) :
    ¬ InfixP q (replaceAll pat marker s) :=
  replaceAllGo_preserves hh hb pat s.length s le_rfl hns

/-! ## Shape of regex matches -/

theorem matchAfter_some {s : List Char} {n : Nat} {m r : List Char}
    (h : matchAfter s n = some (m, r)) :
    (s.drop n).takeWhile urlChar ≠ [] ∧
    m = s.take n ++ (s.drop n).takeWhile urlChar ∧
    r = (s.drop n).drop ((s.drop n).takeWhile urlChar).length := by
  unfold matchAfter at h
  by_cases hb : (s.drop n).takeWhile urlChar = []
  · simp [hb] at h
  · simp only [hb, if_neg, reduceIte] at h
    injection h with h1
    injection h1 with h2 h3
    exact ⟨hb, h2.symm, h3.symm⟩

theorem matchURLAt_some {s m r : List Char} (h : matchURLAt s = some (m, r)) :
    ∃ n, (n = 8 ∧ startsWithL httpsScheme s = true ∨
          n = 7 ∧ startsWithL httpScheme s = true) ∧
      matchAfter s n = some (m, r) := by
  unfold matchURLAt at h
  by_cases h8 : startsWithL httpsScheme s = true
  · exact ⟨8, Or.inl ⟨rfl, h8⟩, by rwa [if_pos h8] at h⟩
  · rw [if_neg h8] at h
    by_cases h7 : startsWithL httpScheme s = true
    · exact ⟨7, Or.inr ⟨rfl, h7⟩, by rwa [if_pos h7] at h⟩
    · rw [if_neg h7] at h; cases h

theorem head_of_scheme {s : List Char} {n : Nat}
    (hsch : n = 8 ∧ startsWithL httpsScheme s = true ∨
            n = 7 ∧ startsWithL httpScheme s = true) :
    ∃ s', s = 'h' :: s' := by
  rcases hsch with ⟨_, hs⟩ | ⟨_, hs⟩ <;>
  · cases s with
    | nil => simp [startsWithL, httpsScheme, httpScheme] at hs
    | cons c cs =>
      refine ⟨cs, ?_⟩
      have : c = 'h' := by
        simp only [httpsScheme, httpScheme, String.data] at hs
        simp only [startsWithL, Bool.and_eq_true, beq_iff_eq] at hs
        exact hs.1.symm
      rw [this]

theorem scheme_le_length {s : List Char} {n : Nat}
    (hsch : n = 8 ∧ startsWithL httpsScheme s = true ∨
            n = 7 ∧ startsWithL httpScheme s = true) : n ≤ s.length := by
  rcases hsch with ⟨rfl, hs⟩ | ⟨rfl, hs⟩
  · have := ((startsWithL_iff httpsScheme s).mp hs).length_le
    simpa [httpsScheme] using this
  · have := ((startsWithL_iff httpScheme s).mp hs).length_le
    simpa [httpScheme] using this

theorem matchURLAt_head {s m r : List Char} (h : matchURLAt s = some (m, r)) :
    m.head? = some 'h' := by
  rcases matchURLAt_some h with ⟨n, hsch, hma⟩
  rcases matchAfter_some hma with ⟨_, hm, _⟩
  rcases head_of_scheme hsch with ⟨s', rfl⟩
  have hn : 1 ≤ n := by rcases hsch with ⟨rfl, _⟩ | ⟨rfl, _⟩ <;> omega
  subst hm
  cases n with
  | zero => omega
  | succ k => simp [List.take]

theorem matchURLAt_prefixP {s m r : List Char} (h : matchURLAt s = some (m, r)) :
    PrefixP m s := by
  rcases matchURLAt_some h with ⟨n, _, hma⟩
  rcases matchAfter_some hma with ⟨_, hm, _⟩
  subst hm
  refine ⟨(s.drop n).dropWhile urlChar, ?_⟩
  rw [List.append_assoc, List.takeWhile_append_dropWhile]
  exact List.take_append_drop n s

theorem matchURLAt_rest_infixP {s m r u : List Char} (h : matchURLAt s = some (m, r))
    (hu : InfixP u r) : InfixP u s := by
  rcases matchURLAt_some h with ⟨n, _, hma⟩
  rcases matchAfter_some hma with ⟨_, _, hr⟩
  subst hr
  exact infixP_of_infixP_drop (infixP_of_infixP_drop hu)

theorem matchURLAt_rest_length {s m r : List Char} (h : matchURLAt s = some (m, r)) :
    r.length < s.length := by
  rcases matchURLAt_some h with ⟨n, hsch, hma⟩
  rcases matchAfter_some hma with ⟨hbody, _, hr⟩
  have hn7 : 7 ≤ n := by rcases hsch with ⟨rfl, _⟩ | ⟨rfl, _⟩ <;> omega
  have hns : n ≤ s.length := scheme_le_length hsch
  have hb1 : 1 ≤ ((s.drop n).takeWhile urlChar).length := by
    cases hx : (s.drop n).takeWhile urlChar with
    | nil => exact absurd hx hbody
    | cons a b => simp
  subst hr
  simp only [List.length_drop]
  omega

/-- Every regex match begins with `'h'` and occurs in the scanned text. -/
theorem mem_findURLsGo {u : List Char} :
    ∀ fuel s, s.length ≤ fuel → u ∈ findURLsGo fuel s →
      u.head? = some 'h' ∧ InfixP u s := by
  intro fuel
  induction fuel with
  | zero =>
    intro s hs hu
    have : s = [] := List.length_eq_zero.mp (Nat.le_zero.mp hs)
    subst this
    simp [findURLsGo] at hu
  | succ fuel ih =>
    intro s hs hu
    cases s with
    | nil => simp [findURLsGo] at hu
    | cons c cs =>
      simp only [findURLsGo] at hu
      cases hm : matchURLAt (c :: cs) with
      | some mr =>
        obtain ⟨m, r⟩ := mr
        rw [hm] at hu
        rcases List.mem_cons.mp hu with rfl | hu'
        · exact ⟨matchURLAt_head hm, (matchURLAt_prefixP hm).infixP⟩
        · have hrl : r.length ≤ fuel := by
            have := matchURLAt_rest_length hm
            omega
          rcases ih r hrl hu' with ⟨h1, h2⟩
          exact ⟨h1, matchURLAt_rest_infixP hm h2⟩
      | none =>
        rw [hm] at hu
        rcases ih cs (by simpa using hs) hu with ⟨h1, h2⟩
        exact ⟨h1, (infixP_cons_iff u c cs).mpr (Or.inr h2)⟩

theorem mem_contains_url {u s : List Char} (hu : u ∈ contains_url s) :
    u.head? = some 'h' ∧ InfixP u s :=
  mem_findURLsGo s.length s le_rfl hu

/-! ## The filter loop invariants -/

theorem filterStep_of_disallowed {A : List (List Char)} {u : List Char}
    (hd : urlDisallowed A u = true) (acc : List Char × Bool) :
    filterStep A acc u = (replaceAll u marker acc.1, true) := by
  unfold filterStep
  unfold urlDisallowed at hd
  cases hp : parseNetloc u with
  | none => rfl
  | some netloc =>
    rw [hp] at hd
    simp only [Bool.not_eq_true'] at hd
    simp [hd]

theorem filterStep_of_allowed {A : List (List Char)} {u : List Char}
    (hd : urlDisallowed A u = false) (acc : List Char × Bool) :
    filterStep A acc u = acc := by
  unfold filterStep
  unfold urlDisallowed at hd
  cases hp : parseNetloc u with
  | none => rw [hp] at hd; cases hd
  | some netloc =>
    rw [hp] at hd
    simp only [Bool.not_eq_false'] at hd
    simp [hd]

/-- The `filtered` flag is never reset by later loop iterations. -/
theorem foldl_flag_mono (A : List (List Char)) :
    ∀ (l : List (List Char)) (acc : List Char × Bool), acc.2 = true →
      (l.foldl (filterStep A) acc).2 = true := by
  intro l
  induction l with
  | nil => intro acc h; simpa using h
  | cons u l' ih =>
    intro acc h
    rw [List.foldl_cons]
    apply ih
    unfold filterStep
    cases parseNetloc u with
    | none => rfl
    | some netloc =>
      dsimp only
      split
      · exact h
      · rfl

/-- Once a `'['`-free URL no longer occurs in the accumulated message,
later loop iterations cannot re-introduce it. -/
theorem foldl_preserves_absent {A : List (List Char)} {u : List Char}
    (hh : u.head? = some 'h') (hb : '[' ∉ u) :
    ∀ (l : List (List Char)) (acc : List Char × Bool), ¬ InfixP u acc.1 →
      ¬ InfixP u (l.foldl (filterStep A) acc).1 := by
  intro l
  induction l with
  | nil => intro acc h; simpa using h
  | cons v l' ih =>
    intro acc h
    rw [List.foldl_cons]
    apply ih
    unfold filterStep
    cases parseNetloc v with
    | none => exact replaceAll_preserves hh hb v acc.1 h
    | some netloc =>
      dsimp only
      split
      · exact h
      · exact replaceAll_preserves hh hb v acc.1 h

/-- With blocking on, a non-moderator sender and a nonempty match list,
`filter_urls` is the fold of the per-URL loop step. -/
theorem filter_urls_eq_foldl {A : List (List Char)} {t : List Char}
    (hne : contains_url t ≠ []) :
    filter_urls true A false t = (contains_url t).foldl (filterStep A) (t, false) := by
  unfold filter_urls
  simp [List.isEmpty_iff, hne]

/-- When every URL match is allowed, the filter loop leaves its
accumulator untouched. -/
theorem foldl_all_allowed (A : List (List Char)) :
    ∀ (l : List (List Char)), (∀ u ∈ l, urlDisallowed A u = false) →
      ∀ acc : List Char × Bool, l.foldl (filterStep A) acc = acc := by
  intro l
  induction l with
  | nil => intro _ acc; rfl
  | cons v l' ih =>
    intro h acc
    rw [List.foldl_cons, filterStep_of_allowed (h v (List.mem_cons_self v l')) acc]
    exact ih (fun u hu => h u (List.mem_cons_of_mem v hu)) acc

/-- C1 counterexample: on `cexText` the filter sets `wasFiltered = true`
but its output still contains an occurrence of the original disallowed
URL `cexURL` (the claim asserts the output contains no such occurrence). -/
theorem C1_counterexample :
    cexURL ∈ contains_url cexText ∧
    urlDisallowed srcAllowedDomains cexURL = true ∧
    (filter_urls true srcAllowedDomains false cexText).2 = true ∧
    strIn cexURL (filter_urls true srcAllowedDomains false cexText).1 = true := by
  decide

/-- C1 (amended): for every text containing a URL match whose parsed host
is not matched by any allowlist entry, with URL blocking enabled and a
non-moderator sender, the filter returns `wasFiltered = true`; and
provided that URL contains no `'['` character (so that no occurrence of it
can be reassembled from retained text and the `[URL REMOVED]` marker), the
output contains no occurrence of that URL. -/
theorem C1_filter_removes_disallowed_url
    (A : List (List Char)) (t u : List Char)
    (hmem : u ∈ contains_url t)
    (hdis : urlDisallowed A u = true)
    (hbr : '[' ∉ u) :
    (filter_urls true A false t).2 = true ∧
    strIn u (filter_urls true A false t).1 = false := by
  obtain ⟨hh, _⟩ := mem_contains_url hmem
  have hne : contains_url t ≠ [] := List.ne_nil_of_mem hmem
  rw [filter_urls_eq_foldl hne]
  obtain ⟨l₁, l₂, hsplit⟩ := List.append_of_mem hmem
  rw [hsplit, List.foldl_append, List.foldl_cons]
  rw [filterStep_of_disallowed hdis]
  set acc₁ := l₁.foldl (filterStep A) (t, false) with hacc
  refine ⟨foldl_flag_mono A l₂ _ rfl, ?_⟩
  have h1 : ¬ InfixP u (replaceAll u marker acc₁.1) := replaceAll_no_self hh hbr acc₁.1
  have h2 := foldl_preserves_absent (A := A) hh hbr l₂ (replaceAll u marker acc₁.1, true) h1
  cases hsi : strIn u (l₂.foldl (filterStep A) (replaceAll u marker acc₁.1, true)).1 with
  | false => rfl
  | true => exact absurd ((strIn_iff u _).mp hsi) h2

/-- C1 witness: a disallowed `'['`-free URL is redacted and gone. -/
theorem C1_witness :
    "http://evil.com/x".data ∈ contains_url "kill http://evil.com/x now".data ∧
    urlDisallowed srcAllowedDomains "http://evil.com/x".data = true ∧
    '[' ∉ "http://evil.com/x".data ∧
    ((filter_urls true srcAllowedDomains false "kill http://evil.com/x now".data).2 = true ∧
     strIn "http://evil.com/x".data
       (filter_urls true srcAllowedDomains false "kill http://evil.com/x now".data).1 = false) :=
  ⟨by decide, by decide, by decide,
   C1_filter_removes_disallowed_url srcAllowedDomains
     "kill http://evil.com/x now".data "http://evil.com/x".data
     (by decide) (by decide) (by decide)⟩

/-! ## Claim C9 -/

/-- C9 counterexample: filtering is not idempotent.  On `cexText` the
first pass produces text that still contains a disallowed URL-shaped
substring, so a second pass filters again (`wasFiltered = true` and a
different text), where the claim requires the second pass to return its
input unchanged with `wasFiltered = false`. -/
theorem C9_counterexample :
    (filter_urls true srcAllowedDomains false
        (filter_urls true srcAllowedDomains false cexText).1).2 = true ∧
    filter_urls true srcAllowedDomains false
        (filter_urls true srcAllowedDomains false cexText).1 ≠
      ((filter_urls true srcAllowedDomains false cexText).1, false) := by
  decide

/-- C9 (amended): the filter is a no-op — it returns its input unchanged
with `wasFiltered = false` — on every text all of whose URL matches are
allowed (in particular on text with no URL matches).  Filtering
already-filtered text is therefore a no-op exactly when the first pass
left no disallowed URL-shaped substrings behind; the counterexample shows
the first pass does not always guarantee that. -/
theorem C9_filter_noop_on_clean_text (A : List (List Char)) (t : List Char)
    (h : ∀ u ∈ contains_url t, urlDisallowed A u = false) :
    filter_urls true A false t = (t, false) := by
  by_cases hne : contains_url t = []
  · unfold filter_urls
    simp [List.isEmpty_iff, hne]
  · rw [filter_urls_eq_foldl hne]
    exact foldl_all_allowed A (contains_url t) h (t, false)

/-- C9 witness: a text whose only URL match is allowlisted is untouched. -/
theorem C9_witness :
    (∀ u ∈ contains_url "pic https://i.imgur.com/a.png ok".data,
       urlDisallowed srcAllowedDomains u = false) ∧
    filter_urls true srcAllowedDomains false "pic https://i.imgur.com/a.png ok".data =
      ("pic https://i.imgur.com/a.png ok".data, false) :=
  ⟨by decide,
   C9_filter_noop_on_clean_text srcAllowedDomains
     "pic https://i.imgur.com/a.png ok".data (by decide)⟩

/-! ## Claim C6 -/

/-- C6: the allowlist check is substring containment of an entry within
the lowercased netloc — `domainAllowed` holds exactly when some entry
occurs inside the lowercased host — and consequently, with the shipped
allowlist containing `imgur.com`, URLs with hosts `notimgur.com` and
`imgur.com.attacker.net` are left unredacted. -/
theorem C6_allowlist_is_substring_containment :
    (∀ (A : List (List Char)) (netloc : List Char),
       domainAllowed A (netloc.map Char.toLower) = true ↔
       ∃ a ∈ A, InfixP a (netloc.map Char.toLower)) ∧
    filter_urls true srcAllowedDomains false "see http://notimgur.com/x".data =
      ("see http://notimgur.com/x".data, false) ∧
    filter_urls true srcAllowedDomains false "see http://imgur.com.attacker.net/x".data =
      ("see http://imgur.com.attacker.net/x".data, false) := by
  refine ⟨?_, by decide, by decide⟩
  intro A netloc
  unfold domainAllowed
  rw [List.any_eq_true]
  constructor
  · rintro ⟨a, ha, hs⟩
    exact ⟨a, ha, (strIn_iff a _).mp hs⟩
  · rintro ⟨a, ha, hs⟩
    exact ⟨a, ha, (strIn_iff a _).mpr hs⟩

/-! ## Claim C7 -/

/-- C7: with URL blocking disabled, or a moderator sender (platform role
flag or static allowlist, via either adapter's `is_moderator`), the filter
returns the text unchanged with `wasFiltered = false`, regardless of its
URLs. -/
theorem C7_filter_bypass :
    (∀ (block : Bool) (A : List (List Char)) (isMod : Bool) (msg : List Char),
       block = false ∨ isMod = true → filter_urls block A isMod msg = (msg, false)) ∧
    (∀ (mods : List (List Char)) (author : List Char) (im ib : Bool),
       im = true ∨ ib = true ∨ author ∈ mods →
       twitch_is_moderator mods author im ib = true) ∧
    (∀ (mods : List (List Char)) (author : List Char) (fl : Bool),
       author ∈ mods ∨ fl = true → yt_is_moderator mods author fl = true) := by
  refine ⟨?_, ?_, ?_⟩
  · rintro block A isMod msg (rfl | rfl)
    · rfl
    · cases block <;> rfl
  · rintro mods author im ib (rfl | rfl | hm)
    · rfl
    · unfold twitch_is_moderator; simp
    · unfold twitch_is_moderator
      simp [List.contains, List.elem_iff, hm]
  · rintro mods author fl (hm | rfl)
    · unfold yt_is_moderator
      simp [List.contains, List.elem_iff, hm]
    · unfold yt_is_moderator; simp

/-- C7 witness: a moderator's URL-laden message passes through untouched;
so does any message when blocking is off. -/
theorem C7_witness :
    filter_urls true srcAllowedDomains true "go http://evil.com".data =
      ("go http://evil.com".data, false) ∧
    filter_urls false srcAllowedDomains false "go http://evil.com".data =
      ("go http://evil.com".data, false) ∧
    twitch_is_moderator ["Alice".data] "Alice".data false false = true ∧
    yt_is_moderator [] "Bob".data true = true :=
  ⟨(C7_filter_bypass.1 true srcAllowedDomains true "go http://evil.com".data (Or.inr rfl)),
   (C7_filter_bypass.1 false srcAllowedDomains false "go http://evil.com".data (Or.inl rfl)),
   (C7_filter_bypass.2.1 ["Alice".data] "Alice".data false false (Or.inr (Or.inr (by decide)))),
   (C7_filter_bypass.2.2 [] "Bob".data true (Or.inr rfl))⟩

/-! ## Path enumeration of the handlers -/

/-- The Twitch `chaos` handler takes exactly one of six paths: usage hint
(no prompt), bits-threshold rejection, cooldown rejection, successful
dispatch, or failed dispatch. -/
theorem chaos_paths (cfg : TwitchCfg) (cd : Cooldowns) (now : Int) (author : List Char)
    (prompt : Option (List Char)) (bits : Nat) (im ib : Bool) (resp : BrainResponse) :
    ((prompt = none ∨ prompt = some []) ∧
      chaos cfg cd now author prompt bits im ib resp = ⟨[.usage author], cd, false⟩) ∨
    (∃ p, prompt = some p ∧ p.isEmpty = false ∧
      (((cfg.require_bits && decide (bits < cfg.min_bits_amount)) = true ∧
        chaos cfg cd now author prompt bits im ib resp =
          ⟨[.needBits author cfg.min_bits_amount], cd, false⟩) ∨
       ((cfg.require_bits && decide (bits < cfg.min_bits_amount)) = false ∧
        ((is_on_cooldown cfg.cooldown_seconds cd now author = true ∧
          chaos cfg cd now author prompt bits im ib resp =
            ⟨[.cooldownWait author cfg.cooldown_seconds], cd, false⟩) ∨
         (is_on_cooldown cfg.cooldown_seconds cd now author = false ∧
          ((pyTruthy (send_to_brain resp).1 = true ∧
            chaos cfg cd now author prompt bits im ib resp =
              ⟨twPre cfg author p im ib ++ [.success author],
               set_cooldown cd author now, true⟩) ∨
           (pyTruthy (send_to_brain resp).1 = false ∧
            chaos cfg cd now author prompt bits im ib resp =
              ⟨twPre cfg author p im ib ++ [.failed author], cd, true⟩))))))) := by
  cases prompt with
  | none => exact Or.inl ⟨Or.inl rfl, rfl⟩
  | some p =>
    by_cases hp : p.isEmpty = true
    · refine Or.inl ⟨Or.inr ?_, ?_⟩
      · rw [List.isEmpty_iff.mp hp]
      · simp [chaos, hp]
    · refine Or.inr ⟨p, rfl, Bool.not_eq_true _ ▸ (by simpa using hp), ?_⟩
      by_cases hb : (cfg.require_bits && decide (bits < cfg.min_bits_amount)) = true
      · exact Or.inl ⟨hb, by simp [chaos, hp, hb]⟩
      · refine Or.inr ⟨by simpa using hb, ?_⟩
        by_cases hc : is_on_cooldown cfg.cooldown_seconds cd now author = true
        · exact Or.inl ⟨hc, by simp [chaos, hp, hb, hc]⟩
        · refine Or.inr ⟨by simpa using hc, ?_⟩
          by_cases hok : pyTruthy (send_to_brain resp).1 = true
          · exact Or.inl ⟨hok, by simp [chaos, twPre, twFilter, hp, hb, hc, hok]⟩
          · exact Or.inr ⟨by simpa using hok,
              by simp [chaos, twPre, twFilter, hp, hb, hc, hok]⟩

/-- The Super-Chat branch takes exactly one of four paths: amount below
the minimum, cooldown skip, successful dispatch, or failed dispatch. -/
theorem ytSuperChat_paths (cfg : YTCfg) (cd : Cooldowns) (now : Int)
    (a m : List Char) (amt : Option (List Char)) (mo : Option Bool)
    (resp : BrainResponse) :
    let amount_str := amt.getD "Unknown".data
    let header : List YPrint := [.superChatHeader a amount_str, .messageLine m]
    (decAmountLe cfg.min_super_chat_amount (amountValue amount_str) = false ∧
      ytSuperChat cfg cd now a m amt mo resp =
        ⟨header ++ [.amountTooLow], cd, false, []⟩) ∨
    (decAmountLe cfg.min_super_chat_amount (amountValue amount_str) = true ∧
     ((is_on_cooldown cfg.cooldown_seconds cd now a = true ∧
       ytSuperChat cfg cd now a m amt mo resp =
         ⟨header ++ ytNotes cfg a m mo ++ [.cooldownSkip], cd, false, []⟩) ∨
      (is_on_cooldown cfg.cooldown_seconds cd now a = false ∧
       ((pyTruthy (send_to_brain resp).1 = true ∧
         ytSuperChat cfg cd now a m amt mo resp =
           ⟨header ++ ytNotes cfg a m mo ++ [.chaosActivated],
            set_cooldown cd a now, true, []⟩) ∨
        (pyTruthy (send_to_brain resp).1 = false ∧
         ytSuperChat cfg cd now a m amt mo resp =
           ⟨header ++ ytNotes cfg a m mo ++ [.failedToProcess], cd, true, []⟩))))) := by
  intro amount_str header
  by_cases hga : decAmountLe cfg.min_super_chat_amount (amountValue amount_str) = true
  · refine Or.inr ⟨hga, ?_⟩
    by_cases hc : is_on_cooldown cfg.cooldown_seconds cd now a = true
    · exact Or.inl ⟨hc, by simp [ytSuperChat, ytNotes, ytFilter, amount_str, header, hga, hc]⟩
    · refine Or.inr ⟨by simpa using hc, ?_⟩
      by_cases hok : pyTruthy (send_to_brain resp).1 = true
      · exact Or.inl ⟨hok,
          by simp [ytSuperChat, ytNotes, ytFilter, amount_str, header, hga, hc, hok]⟩
      · exact Or.inr ⟨by simpa using hok,
          by simp [ytSuperChat, ytNotes, ytFilter, amount_str, header, hga, hc, hok]⟩
  · exact Or.inl ⟨by simpa using hga,
      by simp [ytSuperChat, amount_str, header, by simpa using hga]⟩

/-- The regular-chat branch takes exactly one of five paths: guard not
taken, empty prompt (silently skipped), cooldown skip, successful
dispatch, or failed dispatch. -/
theorem ytRegular_paths (cfg : YTCfg) (cd : Cooldowns) (now : Int)
    (a m : List Char) (mo : Option Bool) (resp : BrainResponse) :
    ((cfg.allow_regular_chat && startsWithL cfg.chat_command m) = false ∧
      ytRegular cfg cd now a m mo resp = ⟨[], cd, false, []⟩) ∨
    ((cfg.allow_regular_chat && startsWithL cfg.chat_command m) = true ∧
     (((ytPrompt cfg m).isEmpty = true ∧
       ytRegular cfg cd now a m mo resp = ⟨[], cd, false, []⟩) ∨
      ((ytPrompt cfg m).isEmpty = false ∧
       ((is_on_cooldown cfg.cooldown_seconds cd now a = true ∧
         ytRegular cfg cd now a m mo resp =
           ⟨[.regularHeader a (ytPrompt cfg m)] ++ ytNotesR cfg a m mo ++ [.cooldownSkip],
            cd, false, []⟩) ∨
        (is_on_cooldown cfg.cooldown_seconds cd now a = false ∧
         ((pyTruthy (send_to_brain resp).1 = true ∧
           ytRegular cfg cd now a m mo resp =
             ⟨[.regularHeader a (ytPrompt cfg m)] ++ ytNotesR cfg a m mo ++ [.chaosActivated],
              set_cooldown cd a now, true, []⟩) ∨
          (pyTruthy (send_to_brain resp).1 = false ∧
           ytRegular cfg cd now a m mo resp =
             ⟨[.regularHeader a (ytPrompt cfg m)] ++ ytNotesR cfg a m mo ++ [.failedToProcess],
              cd, true, []⟩))))))) := by
  by_cases hg : (cfg.allow_regular_chat && startsWithL cfg.chat_command m) = true
  · refine Or.inr ⟨hg, ?_⟩
    by_cases hp : (ytPrompt cfg m).isEmpty = true
    · have hp' : (pyStrip (m.drop cfg.chat_command.length)).isEmpty = true := by
        simpa [ytPrompt] using hp
      exact Or.inl ⟨hp, by simp [ytRegular, hg, hp']⟩
    · have hp' : (pyStrip (m.drop cfg.chat_command.length)).isEmpty = false := by
        simpa [ytPrompt] using hp
      refine Or.inr ⟨by simpa using hp, ?_⟩
      by_cases hc : is_on_cooldown cfg.cooldown_seconds cd now a = true
      · exact Or.inl ⟨hc,
          by simp [ytRegular, ytPrompt, ytNotesR, ytNotes, ytFilter, hg, hp', hc]⟩
      · refine Or.inr ⟨by simpa using hc, ?_⟩
        by_cases hok : pyTruthy (send_to_brain resp).1 = true
        · exact Or.inl ⟨hok,
            by simp [ytRegular, ytPrompt, ytNotesR, ytNotes, ytFilter, hg, hp', hc, hok]⟩
        · exact Or.inr ⟨by simpa using hok,
            by simp [ytRegular, ytPrompt, ytNotesR, ytNotes, ytFilter, hg, hp', hc, hok]⟩
  · have hg2 : (cfg.allow_regular_chat && startsWithL cfg.chat_command m) = false := by
      simpa using hg
    exact Or.inl ⟨hg2, by unfold ytRegular; rw [hg2]; simp⟩

/-! ## Cooldown-mutation helpers -/

theorem chaos_cooldowns_of_fail {cfg : TwitchCfg} {cd : Cooldowns} {now : Int}
    {author : List Char} {prompt : Option (List Char)} {bits : Nat} {im ib : Bool}
    {resp : BrainResponse} (h : pyTruthy (send_to_brain resp).1 = false) :
    (chaos cfg cd now author prompt bits im ib resp).cooldowns = cd := by
  rcases chaos_paths cfg cd now author prompt bits im ib resp with
    ⟨_, he⟩ | ⟨p, _, _, ⟨_, he⟩ | ⟨_, ⟨_, he⟩ | ⟨_, ⟨hok, he⟩ | ⟨_, he⟩⟩⟩⟩ <;>
    simp [he] <;> simp_all

theorem chaos_cooldowns_of_undispatched {cfg : TwitchCfg} {cd : Cooldowns} {now : Int}
    {author : List Char} {prompt : Option (List Char)} {bits : Nat} {im ib : Bool}
    {resp : BrainResponse}
    (h : (chaos cfg cd now author prompt bits im ib resp).dispatched = false) :
    (chaos cfg cd now author prompt bits im ib resp).cooldowns = cd := by
  rcases chaos_paths cfg cd now author prompt bits im ib resp with
    ⟨_, he⟩ | ⟨p, _, _, ⟨_, he⟩ | ⟨_, ⟨_, he⟩ | ⟨_, ⟨hok, he⟩ | ⟨_, he⟩⟩⟩⟩ <;>
    simp [he] <;> simp_all

theorem chaos_cooldowns_of_success {cfg : TwitchCfg} {cd : Cooldowns} {now : Int}
    {author : List Char} {prompt : Option (List Char)} {bits : Nat} {im ib : Bool}
    {resp : BrainResponse}
    (hd : (chaos cfg cd now author prompt bits im ib resp).dispatched = true)
    (h : pyTruthy (send_to_brain resp).1 = true) :
    (chaos cfg cd now author prompt bits im ib resp).cooldowns =
      set_cooldown cd author now := by
  rcases chaos_paths cfg cd now author prompt bits im ib resp with
    ⟨_, he⟩ | ⟨p, _, _, ⟨_, he⟩ | ⟨_, ⟨_, he⟩ | ⟨_, ⟨hok, he⟩ | ⟨hok, he⟩⟩⟩⟩ <;>
    simp [he] <;> simp_all

theorem ytSuperChat_cooldowns_of_fail {cfg : YTCfg} {cd : Cooldowns} {now : Int}
    {a m : List Char} {amt : Option (List Char)} {mo : Option Bool}
    {resp : BrainResponse} (h : pyTruthy (send_to_brain resp).1 = false) :
    (ytSuperChat cfg cd now a m amt mo resp).cooldowns = cd := by
  rcases ytSuperChat_paths cfg cd now a m amt mo resp with
    ⟨_, he⟩ | ⟨_, ⟨_, he⟩ | ⟨_, ⟨hok, he⟩ | ⟨_, he⟩⟩⟩ <;>
    simp [he] <;> simp_all

theorem ytSuperChat_cooldowns_of_undispatched {cfg : YTCfg} {cd : Cooldowns} {now : Int}
    {a m : List Char} {amt : Option (List Char)} {mo : Option Bool}
    {resp : BrainResponse}
    (h : (ytSuperChat cfg cd now a m amt mo resp).dispatched = false) :
    (ytSuperChat cfg cd now a m amt mo resp).cooldowns = cd := by
  rcases ytSuperChat_paths cfg cd now a m amt mo resp with
    ⟨_, he⟩ | ⟨_, ⟨_, he⟩ | ⟨_, ⟨hok, he⟩ | ⟨_, he⟩⟩⟩ <;>
    simp [he] <;> simp_all

theorem ytSuperChat_cooldowns_of_success {cfg : YTCfg} {cd : Cooldowns} {now : Int}
    {a m : List Char} {amt : Option (List Char)} {mo : Option Bool}
    {resp : BrainResponse}
    (hd : (ytSuperChat cfg cd now a m amt mo resp).dispatched = true)
    (h : pyTruthy (send_to_brain resp).1 = true) :
    (ytSuperChat cfg cd now a m amt mo resp).cooldowns = set_cooldown cd a now := by
  rcases ytSuperChat_paths cfg cd now a m amt mo resp with
    ⟨_, he⟩ | ⟨_, ⟨_, he⟩ | ⟨_, ⟨hok, he⟩ | ⟨hok, he⟩⟩⟩ <;>
    simp [he] <;> simp_all

theorem ytRegular_cooldowns_of_fail {cfg : YTCfg} {cd : Cooldowns} {now : Int}
    {a m : List Char} {mo : Option Bool} {resp : BrainResponse}
    (h : pyTruthy (send_to_brain resp).1 = false) :
    (ytRegular cfg cd now a m mo resp).cooldowns = cd := by
  rcases ytRegular_paths cfg cd now a m mo resp with
    ⟨_, he⟩ | ⟨_, ⟨_, he⟩ | ⟨_, ⟨_, he⟩ | ⟨_, ⟨hok, he⟩ | ⟨_, he⟩⟩⟩⟩ <;>
    simp [he] <;> simp_all

theorem ytRegular_cooldowns_of_undispatched {cfg : YTCfg} {cd : Cooldowns} {now : Int}
    {a m : List Char} {mo : Option Bool} {resp : BrainResponse}
    (h : (ytRegular cfg cd now a m mo resp).dispatched = false) :
    (ytRegular cfg cd now a m mo resp).cooldowns = cd := by
  rcases ytRegular_paths cfg cd now a m mo resp with
    ⟨_, he⟩ | ⟨_, ⟨_, he⟩ | ⟨_, ⟨_, he⟩ | ⟨_, ⟨hok, he⟩ | ⟨_, he⟩⟩⟩⟩ <;>
    simp [he] <;> simp_all

theorem ytRegular_cooldowns_of_success {cfg : YTCfg} {cd : Cooldowns} {now : Int}
    {a m : List Char} {mo : Option Bool} {resp : BrainResponse}
    (hd : (ytRegular cfg cd now a m mo resp).dispatched = true)
    (h : pyTruthy (send_to_brain resp).1 = true) :
    (ytRegular cfg cd now a m mo resp).cooldowns = set_cooldown cd a now := by
  rcases ytRegular_paths cfg cd now a m mo resp with
    ⟨_, he⟩ | ⟨_, ⟨_, he⟩ | ⟨_, ⟨_, he⟩ | ⟨_, ⟨hok, he⟩ | ⟨hok, he⟩⟩⟩⟩ <;>
    simp [he] <;> simp_all

/-- Two backend responses whose return values are both falsy lead `chaos`
to identical observable behaviour: the handler inspects nothing but the
truthiness of `send_to_brain`'s return value. -/
theorem chaos_resp_irrelevant_on_fail {cfg : TwitchCfg} {cd : Cooldowns} {now : Int}
    {author : List Char} {prompt : Option (List Char)} {bits : Nat} {im ib : Bool}
    {r1 r2 : BrainResponse}
    (h1 : pyTruthy (send_to_brain r1).1 = false)
    (h2 : pyTruthy (send_to_brain r2).1 = false) :
    chaos cfg cd now author prompt bits im ib r1 =
    chaos cfg cd now author prompt bits im ib r2 := by
  unfold chaos
  cases prompt with
  | none => rfl
  | some p => simp [h1, h2]

/-- Exact-decimal comparison agrees with the rational order on values. -/
theorem decAmountLe_iff_val (x y : DecAmount) :
    decAmountLe x y = true ↔ x.val ≤ y.val := by
  unfold decAmountLe DecAmount.val
  rw [decide_eq_true_eq]
  rw [div_le_div_iff₀ (by positivity) (by positivity)]
  constructor
  · intro h; exact_mod_cast h
  · intro h; exact_mod_cast h

/-! ## Claim C2 -/

/-- C2: in both adapters the author-cooldown map is updated only when a
command has passed every check and the dispatch reports success
(`send_to_brain` truthy); on every other path — no/empty prompt, below
threshold, on cooldown, safety-rejected, backend error, backend
unreachable, or any falsy return — the map is returned unchanged, so the
author may retry immediately. -/
theorem C2_cooldown_only_on_success :
    (∀ (cfg : TwitchCfg) (cd : Cooldowns) (now : Int) (author : List Char)
       (prompt : Option (List Char)) (bits : Nat) (im ib : Bool) (resp : BrainResponse),
       (pyTruthy (send_to_brain resp).1 = false →
         (chaos cfg cd now author prompt bits im ib resp).cooldowns = cd) ∧
       ((chaos cfg cd now author prompt bits im ib resp).dispatched = false →
         (chaos cfg cd now author prompt bits im ib resp).cooldowns = cd) ∧
       ((chaos cfg cd now author prompt bits im ib resp).dispatched = true →
         pyTruthy (send_to_brain resp).1 = true →
         (chaos cfg cd now author prompt bits im ib resp).cooldowns =
           set_cooldown cd author now)) ∧
    (∀ (cfg : YTCfg) (cd : Cooldowns) (now : Int) (a m : List Char)
       (amt : Option (List Char)) (mo : Option Bool) (resp : BrainResponse),
       (pyTruthy (send_to_brain resp).1 = false →
         (ytSuperChat cfg cd now a m amt mo resp).cooldowns = cd) ∧
       ((ytSuperChat cfg cd now a m amt mo resp).dispatched = false →
         (ytSuperChat cfg cd now a m amt mo resp).cooldowns = cd) ∧
       ((ytSuperChat cfg cd now a m amt mo resp).dispatched = true →
         pyTruthy (send_to_brain resp).1 = true →
         (ytSuperChat cfg cd now a m amt mo resp).cooldowns = set_cooldown cd a now)) ∧
    (∀ (cfg : YTCfg) (cd : Cooldowns) (now : Int) (a m : List Char)
       (mo : Option Bool) (resp : BrainResponse),
       (pyTruthy (send_to_brain resp).1 = false →
         (ytRegular cfg cd now a m mo resp).cooldowns = cd) ∧
       ((ytRegular cfg cd now a m mo resp).dispatched = false →
         (ytRegular cfg cd now a m mo resp).cooldowns = cd) ∧
       ((ytRegular cfg cd now a m mo resp).dispatched = true →
         pyTruthy (send_to_brain resp).1 = true →
         (ytRegular cfg cd now a m mo resp).cooldowns = set_cooldown cd a now)) := by
  refine ⟨fun cfg cd now author prompt bits im ib resp => ⟨?_, ?_, ?_⟩,
          fun cfg cd now a m amt mo resp => ⟨?_, ?_, ?_⟩,
          fun cfg cd now a m mo resp => ⟨?_, ?_, ?_⟩⟩
  · exact chaos_cooldowns_of_fail
  · exact chaos_cooldowns_of_undispatched
  · exact chaos_cooldowns_of_success
  · exact ytSuperChat_cooldowns_of_fail
  · exact ytSuperChat_cooldowns_of_undispatched
  · exact ytSuperChat_cooldowns_of_success
  · exact ytRegular_cooldowns_of_fail
  · exact ytRegular_cooldowns_of_undispatched
  · exact ytRegular_cooldowns_of_success

/-- C2 witness: a safety-rejected, an unreachable and a below-threshold
attempt leave the map unchanged; a successful dispatch sets it. -/
theorem C2_witness :
    (chaos srcTwitchCfg [] 0 "bob".data (some "go".data) 0 false false
      (.http 200 ⟨some "ignored".data, some "nope".data⟩)).cooldowns = [] ∧
    (chaos srcTwitchCfg [] 0 "bob".data (some "go".data) 0 false false
      .networkError).cooldowns = [] ∧
    (ytSuperChat srcYTCfg [] 0 "ann".data "hi".data (some "$0.50".data) none
      (.http 200 ⟨some "queued".data, none⟩)).cooldowns = [] ∧
    (chaos srcTwitchCfg [] 7 "bob".data (some "go".data) 0 false false
      (.http 200 ⟨some "queued".data, none⟩)).cooldowns = [("bob".data, 7)] :=
  ⟨(C2_cooldown_only_on_success.1 srcTwitchCfg [] 0 "bob".data (some "go".data) 0
      false false (.http 200 ⟨some "ignored".data, some "nope".data⟩)).1 (by decide),
   (C2_cooldown_only_on_success.1 srcTwitchCfg [] 0 "bob".data (some "go".data) 0
      false false .networkError).1 (by decide),
   (C2_cooldown_only_on_success.2.1 srcYTCfg [] 0 "ann".data "hi".data
      (some "$0.50".data) none (.http 200 ⟨some "queued".data, none⟩)).2.1 (by decide),
   (C2_cooldown_only_on_success.1 srcTwitchCfg [] 7 "bob".data (some "go".data) 0
      false false (.http 200 ⟨some "queued".data, none⟩)).2.2 (by decide) (by decide)⟩

/-- C3 counterexample: a safety rejection is *not* surfaced to the sender
distinctly from a connectivity failure — `send_to_brain` returns the same
value (`False`) for both, and the message sequence the author receives
from the Twitch handler is identical in the two cases (the distinction
exists only in the operator console log). -/
theorem C3_counterexample :
    (send_to_brain respIgnored).1 = (send_to_brain .networkError).1 ∧
    (chaos srcTwitchCfg [] 0 "bob".data (some "do it".data) 0 false false
        respIgnored).sent =
      (chaos srcTwitchCfg [] 0 "bob".data (some "do it".data) 0 false false
        .networkError).sent := by
  decide

/-- C3 (amended): an HTTP 200 response with status `"ignored"` makes
dispatch return `False` and print a console log line carrying the
backend-supplied `message` field, and that log line is distinct from the
connectivity-failure log line (`BackendUnreachable`, produced on a
network/timeout error, which also returns `False`); but the value returned
to the caller, and hence everything the *sender* sees, is identical in the
two cases. -/
theorem C3_safety_rejection_logged_not_surfaced :
    (∀ msg : Option (List Char),
       send_to_brain (.http 200 ⟨some "ignored".data, msg⟩) =
         (some false, some (.blockedBySafety msg)) ∧
       send_to_brain .networkError = (some false, some .connectFailed) ∧
       some (BrainLog.blockedBySafety msg) ≠ some BrainLog.connectFailed) ∧
    (∀ (cfg : TwitchCfg) (cd : Cooldowns) (now : Int) (author : List Char)
       (prompt : Option (List Char)) (bits : Nat) (im ib : Bool)
       (msg : Option (List Char)),
       chaos cfg cd now author prompt bits im ib (.http 200 ⟨some "ignored".data, msg⟩) =
       chaos cfg cd now author prompt bits im ib .networkError) := by
  constructor
  · intro msg
    refine ⟨rfl, rfl, by simp⟩
  · intro cfg cd now author prompt bits im ib msg
    exact chaos_resp_irrelevant_on_fail rfl rfl

/-! ## Claim C10 -/

/-- C10: an HTTP 200 response whose body's `status` is neither `"queued"`
nor `"ignored"` (including a missing `status` field) makes `send_to_brain`
fall through its `if`/`elif` chain and return Python `None` — falsy but
distinct from the explicit `False` of the other failure branches, and with
no log line printed — and every caller treats it as a failed dispatch, so
the author's cooldown is not set. -/
theorem C10_status_fallthrough_returns_none :
    ∀ body : BrainBody,
      body.status ≠ some "queued".data →
      body.status ≠ some "ignored".data →
      send_to_brain (.http 200 body) = (none, none) ∧
      (none : Option Bool) ≠ some false ∧
      (send_to_brain .networkError).1 = some false ∧
      (send_to_brain (.http 500 body)).1 = some false ∧
      pyTruthy (send_to_brain (.http 200 body)).1 = false ∧
      (∀ (cfg : TwitchCfg) (cd : Cooldowns) (now : Int) (author : List Char)
         (prompt : Option (List Char)) (bits : Nat) (im ib : Bool),
         (chaos cfg cd now author prompt bits im ib (.http 200 body)).cooldowns = cd) ∧
      (∀ (cfg : YTCfg) (cd : Cooldowns) (now : Int) (a m : List Char)
         (amt : Option (List Char)) (mo : Option Bool),
         (ytSuperChat cfg cd now a m amt mo (.http 200 body)).cooldowns = cd) ∧
      (∀ (cfg : YTCfg) (cd : Cooldowns) (now : Int) (a m : List Char) (mo : Option Bool),
         (ytRegular cfg cd now a m mo (.http 200 body)).cooldowns = cd) := by
  intro body h1 h2
  have hsend : send_to_brain (.http 200 body) = (none, none) := by
    simp only [send_to_brain]
    rw [if_pos trivial, if_neg h1, if_neg h2]
  have hfalsy : pyTruthy (send_to_brain (.http 200 body)).1 = false := by
    rw [hsend]; rfl
  refine ⟨hsend, by simp, rfl, by simp [send_to_brain], hfalsy, ?_, ?_, ?_⟩
  · intro cfg cd now author prompt bits im ib
    exact chaos_cooldowns_of_fail hfalsy
  · intro cfg cd now a m amt mo
    exact ytSuperChat_cooldowns_of_fail hfalsy
  · intro cfg cd now a m mo
    exact ytRegular_cooldowns_of_fail hfalsy

/-! ## Claim C5 -/

/-- C5: the threshold gate passes iff payment is not required or the
amount is at least the configured minimum.  On Twitch the gate is
`not (REQUIRE_BITS and bits < MIN_BITS_AMOUNT)`; a dispatched command
implies the gate held, and a below-minimum paid command is rejected with
the bits message before the dispatcher runs.  On YouTube the Super-Chat
gate is `amount_value >= MIN_SUPER_CHAT_AMOUNT` (payment inherent to the
event); equality passes (`decAmountLe` is reflexive and agrees with `≤` on
exact values), and a below-minimum amount is rejected pre-dispatch. -/
theorem C5_threshold_gate :
    (∀ (require : Bool) (minB bits : Nat),
       (!(require && decide (bits < minB))) = true ↔ (require = false ∨ minB ≤ bits)) ∧
    (∀ x y : DecAmount, decAmountLe x y = true ↔ x.val ≤ y.val) ∧
    (∀ x : DecAmount, decAmountLe x x = true) ∧
    (∀ (cfg : TwitchCfg) (cd : Cooldowns) (now : Int) (author p : List Char)
       (bits : Nat) (im ib : Bool) (resp : BrainResponse),
       p.isEmpty = false → cfg.require_bits = true → bits < cfg.min_bits_amount →
       chaos cfg cd now author (some p) bits im ib resp =
         ⟨[.needBits author cfg.min_bits_amount], cd, false⟩) ∧
    (∀ (cfg : TwitchCfg) (cd : Cooldowns) (now : Int) (author : List Char)
       (prompt : Option (List Char)) (bits : Nat) (im ib : Bool) (resp : BrainResponse),
       (chaos cfg cd now author prompt bits im ib resp).dispatched = true →
       (cfg.require_bits = false ∨ cfg.min_bits_amount ≤ bits)) ∧
    (∀ (cfg : YTCfg) (cd : Cooldowns) (now : Int) (a m : List Char)
       (amt : Option (List Char)) (mo : Option Bool) (resp : BrainResponse),
       decAmountLe cfg.min_super_chat_amount (amountValue (amt.getD "Unknown".data)) = false →
       ytSuperChat cfg cd now a m amt mo resp =
         ⟨[.superChatHeader a (amt.getD "Unknown".data), .messageLine m, .amountTooLow],
          cd, false, []⟩) ∧
    (∀ (cfg : YTCfg) (cd : Cooldowns) (now : Int) (a m : List Char)
       (amt : Option (List Char)) (mo : Option Bool) (resp : BrainResponse),
       (ytSuperChat cfg cd now a m amt mo resp).dispatched = true →
       decAmountLe cfg.min_super_chat_amount (amountValue (amt.getD "Unknown".data)) = true) := by
  refine ⟨?_, decAmountLe_iff_val, ?_, ?_, ?_, ?_, ?_⟩
  · intro require minB bits
    cases require <;> simp [Nat.not_lt]
  · intro x
    simp [decAmountLe]
  · intro cfg cd now author p bits im ib resp hp hreq hlt
    have hb : (cfg.require_bits && decide (bits < cfg.min_bits_amount)) = true := by
      simp [hreq, hlt]
    simp [chaos, hp, hb]
  · intro cfg cd now author prompt bits im ib resp hd
    rcases chaos_paths cfg cd now author prompt bits im ib resp with
      ⟨_, he⟩ | ⟨p, _, _, ⟨_, he⟩ | ⟨hb, ⟨_, he⟩ | ⟨_, ⟨_, he⟩ | ⟨_, he⟩⟩⟩⟩
    · simp [he] at hd
    · simp [he] at hd
    · simp [he] at hd
    all_goals
      cases hreq : cfg.require_bits with
      | false => exact Or.inl rfl
      | true =>
        rw [hreq] at hb
        simp only [Bool.true_and, decide_eq_false_iff_not] at hb
        exact Or.inr (Nat.le_of_not_lt hb)
  · intro cfg cd now a m amt mo resp hga
    simp [ytSuperChat, hga]
  · intro cfg cd now a m amt mo resp hd
    rcases ytSuperChat_paths cfg cd now a m amt mo resp with
      ⟨hga, he⟩ | ⟨hga, ⟨_, he⟩ | ⟨_, ⟨_, he⟩ | ⟨_, he⟩⟩⟩
    · simp [he] at hd
    all_goals exact hga

/-- C5 witness: 50 bits with a 100-bit requirement is rejected with the
bits message pre-dispatch; a `$0.50` Super Chat against a `$1.00` minimum
is rejected pre-dispatch; an amount exactly at the minimum passes. -/
theorem C5_witness :
    chaos {srcTwitchCfg with require_bits := true} [] 0 "bob".data
        (some "go".data) 50 false false .networkError =
      ⟨[.needBits "bob".data 100], [], false⟩ ∧
    ytSuperChat srcYTCfg [] 0 "ann".data "hi".data (some "$0.50".data) none
        .networkError =
      ⟨[.superChatHeader "ann".data "$0.50".data, .messageLine "hi".data,
        .amountTooLow], [], false, []⟩ ∧
    decAmountLe (⟨100, 2⟩ : DecAmount) (amountValue "$1.00".data) = true :=
  ⟨C5_threshold_gate.2.2.2.1 {srcTwitchCfg with require_bits := true} [] 0
     "bob".data "go".data 50 false false .networkError (by decide) (by decide) (by decide),
   C5_threshold_gate.2.2.2.2.2.1 srcYTCfg [] 0 "ann".data "hi".data
     (some "$0.50".data) none .networkError (by decide),
   by decide⟩

/-! ## Claim C8 -/

/-- C8: paid-amount parsing keeps only digit and `'.'` characters; a
parse failure (no digits, or more than one dot) degrades to amount zero
instead of raising; and with any positive configured minimum (equivalent,
through the exact-value order, to the gate rejecting amount zero) the
event is then rejected by the threshold gate rather than crashing the
polling loop. -/
theorem C8_parse_failure_becomes_zero :
    (∀ s : List Char, (extractAmount s).all (fun c => c.isDigit || c == '.') = true) ∧
    (∀ s : List Char, parseAmount (extractAmount s) = none → amountValue s = ⟨0, 0⟩) ∧
    (∀ minAmt : DecAmount, (decAmountLe minAmt ⟨0, 0⟩ = false ↔ 0 < minAmt.val)) ∧
    (∀ (cfg : YTCfg) (cd : Cooldowns) (now : Int) (a m s : List Char)
       (mo : Option Bool) (resp : BrainResponse),
       parseAmount (extractAmount s) = none →
       decAmountLe cfg.min_super_chat_amount ⟨0, 0⟩ = false →
       ytSuperChat cfg cd now a m (some s) mo resp =
         ⟨[.superChatHeader a s, .messageLine m, .amountTooLow], cd, false, []⟩) := by
  refine ⟨?_, ?_, ?_, ?_⟩
  · intro s
    rw [List.all_eq_true]
    intro c hc
    exact (List.mem_filter.mp hc).2
  · intro s h
    unfold amountValue
    rw [h]
    rfl
  · intro minAmt
    have hz : (⟨0, 0⟩ : DecAmount).val = 0 := by simp [DecAmount.val]
    constructor
    · intro h
      by_contra hc
      push_neg at hc
      have ht := (decAmountLe_iff_val minAmt ⟨0, 0⟩).mpr (by rw [hz]; exact hc)
      rw [ht] at h
      cases h
    · intro h
      cases hb : decAmountLe minAmt ⟨0, 0⟩ with
      | false => rfl
      | true =>
        have := (decAmountLe_iff_val minAmt ⟨0, 0⟩).mp hb
        rw [hz] at this
        exact absurd this (not_le.mpr h)
  · intro cfg cd now a m s mo resp hparse hmin
    have hv : amountValue s = ⟨0, 0⟩ := by unfold amountValue; rw [hparse]; rfl
    simp [ytSuperChat, hv, hmin]

/-- C8 witness: the amount string `"$"` extracts to the empty string,
fails to parse, degrades to zero and is rejected by the shipped `$1.00`
minimum without reaching the dispatcher. -/
theorem C8_witness :
    parseAmount (extractAmount "$".data) = none ∧
    amountValue "$".data = ⟨0, 0⟩ ∧
    ytSuperChat srcYTCfg [] 0 "ann".data "hi".data (some "$".data) none
        (.http 200 ⟨some "queued".data, none⟩) =
      ⟨[.superChatHeader "ann".data "$".data, .messageLine "hi".data,
        .amountTooLow], [], false, []⟩ :=
  ⟨by decide, by decide,
   C8_parse_failure_becomes_zero.2.2.2 srcYTCfg [] 0 "ann".data "hi".data
     "$".data none (.http 200 ⟨some "queued".data, none⟩) (by decide) (by decide)⟩

/-! ## Claim C4 -/

/-- C4 counterexample: in the polling (YouTube) adapter a rejection is
*silent to the originating author* — the adapter has no channel to the
author at all (pytchat is read-only; the source sends no chat message), so
a cooldown-rejected Super Chat produces zero messages to the author where
the claim requires exactly one; the outcome appears only as a console log
line. -/
theorem C4_counterexample :
    (ytSuperChat srcYTCfg [("ann".data, 0)] 1 "ann".data "hello".data
        (some "$5.00".data) none .networkError).dispatched = false ∧
    YPrint.cooldownSkip ∈ (ytSuperChat srcYTCfg [("ann".data, 0)] 1 "ann".data
        "hello".data (some "$5.00".data) none .networkError).printed ∧
    (ytSuperChat srcYTCfg [("ann".data, 0)] 1 "ann".data "hello".data
        (some "$5.00".data) none .networkError).sentToAuthor = [] := by
  decide

/-- C4 (amended): every processed event yields exactly one *outcome*
notification.  In the callback-driven (Twitch) adapter this is one chat
message addressed to the originating author per rejection (usage, bits
threshold, cooldown, failed dispatch) or acknowledgement (success) — the
filtering and "Processing..." notices are additional informational
messages, and every message is addressed to the author.  In the polling
(YouTube) adapter each processed Super Chat, and each regular-chat
command with a nonempty prompt, yields exactly one outcome console line;
nothing is ever sent to the author. -/
theorem C4_exactly_one_outcome :
    (∀ (cfg : TwitchCfg) (cd : Cooldowns) (now : Int) (author : List Char)
       (prompt : Option (List Char)) (bits : Nat) (im ib : Bool) (resp : BrainResponse),
       (chaos cfg cd now author prompt bits im ib resp).sent.countP isOutcomeMsg = 1 ∧
       (chaos cfg cd now author prompt bits im ib resp).sent.all
         (fun x => msgAuthor x == author) = true) ∧
    (∀ (cfg : YTCfg) (cd : Cooldowns) (now : Int) (a m : List Char)
       (amt : Option (List Char)) (mo : Option Bool) (resp : BrainResponse),
       (ytSuperChat cfg cd now a m amt mo resp).printed.countP isOutcomePrint = 1 ∧
       (ytSuperChat cfg cd now a m amt mo resp).sentToAuthor = []) ∧
    (∀ (cfg : YTCfg) (cd : Cooldowns) (now : Int) (a m : List Char)
       (mo : Option Bool) (resp : BrainResponse),
       (cfg.allow_regular_chat && startsWithL cfg.chat_command m) = true →
       (ytPrompt cfg m).isEmpty = false →
       (ytRegular cfg cd now a m mo resp).printed.countP isOutcomePrint = 1 ∧
       (ytRegular cfg cd now a m mo resp).sentToAuthor = []) := by
  refine ⟨?_, ?_, ?_⟩
  · intro cfg cd now author prompt bits im ib resp
    rcases chaos_paths cfg cd now author prompt bits im ib resp with
      ⟨_, he⟩ | ⟨p, _, _, h3⟩
    · simp [he, isOutcomeMsg, msgAuthor, List.countP_cons, List.countP_nil]
    · rcases h3 with ⟨_, he⟩ | ⟨_, ⟨_, he⟩ | ⟨_, ⟨_, he⟩ | ⟨_, he⟩⟩⟩ <;>
        cases hf : (twFilter cfg author p im ib).2 <;>
        simp [he, twPre, hf, isOutcomeMsg, msgAuthor,
          List.countP_cons, List.countP_nil, List.countP_append]
  · intro cfg cd now a m amt mo resp
    rcases ytSuperChat_paths cfg cd now a m amt mo resp with
      ⟨_, he⟩ | ⟨_, ⟨_, he⟩ | ⟨_, ⟨_, he⟩ | ⟨_, he⟩⟩⟩ <;>
      cases hf : (ytFilter cfg a m mo).2 <;>
      simp [he, ytNotes, hf, isOutcomePrint,
        List.countP_cons, List.countP_nil, List.countP_append]
  · intro cfg cd now a m mo resp hg hp
    rcases ytRegular_paths cfg cd now a m mo resp with
      ⟨hg2, he⟩ | ⟨_, ⟨hp2, he⟩ | ⟨_, ⟨_, he⟩ | ⟨_, ⟨_, he⟩ | ⟨_, he⟩⟩⟩⟩
    · rw [hg] at hg2; cases hg2
    · rw [hp] at hp2; cases hp2
    all_goals
      cases hf : (ytFilter cfg a (ytPrompt cfg m) mo).2 <;>
      simp [he, ytNotesR, ytNotes, hf, isOutcomePrint,
        List.countP_cons, List.countP_nil, List.countP_append]

/-- C4 witness: a regular-chat command with a nonempty prompt produces
exactly one outcome line. -/
theorem C4_witness :
    ({srcYTCfg with allow_regular_chat := true}.allow_regular_chat &&
       startsWithL {srcYTCfg with allow_regular_chat := true}.chat_command
         "!chaos do it".data) = true ∧
    (ytPrompt {srcYTCfg with allow_regular_chat := true} "!chaos do it".data).isEmpty
      = false ∧
    ((ytRegular {srcYTCfg with allow_regular_chat := true} [] 0 "ann".data
        "!chaos do it".data none .networkError).printed.countP isOutcomePrint = 1 ∧
     (ytRegular {srcYTCfg with allow_regular_chat := true} [] 0 "ann".data
        "!chaos do it".data none .networkError).sentToAuthor = []) :=
  ⟨by decide, by decide,
   C4_exactly_one_outcome.2.2 {srcYTCfg with allow_regular_chat := true} [] 0
     "ann".data "!chaos do it".data none .networkError (by decide) (by decide)⟩

/-- C10 witness: a 200 response with status `"done"` (neither `"queued"`
nor `"ignored"`) yields `None`, is treated as failure, and leaves a
cooldown map unchanged. -/
theorem C10_witness :
    send_to_brain (.http 200 ⟨some "done".data, none⟩) = (none, none) ∧
    (chaos srcTwitchCfg [] 0 "bob".data (some "go".data) 0 false false
      (.http 200 ⟨some "done".data, none⟩)).cooldowns = [] :=
  ⟨(C10_status_fallthrough_returns_none ⟨some "done".data, none⟩
      (by decide) (by decide)).1,
   (C10_status_fallthrough_returns_none ⟨some "done".data, none⟩
      (by decide) (by decide)).2.2.2.2.2.1 srcTwitchCfg [] 0 "bob".data
      (some "go".data) 0 false false⟩

end AIChaos
